import Mathlib

/-! A shallow embedding of the resumable batch-scraping engine in `app.js`:
the amount/row parsing, the retrying fetch wrapper `processCID`, and the
worker loop of `workerThread` together with the persisted status, result
and failure files.  The control flags `shouldStop` / `shouldPause` are
modelled as boolean streams over an abstract clock that advances at every
observation of a flag; external page interaction is an oracle giving each
attempt's outcome. -/

namespace App

/-- `CONFIG.MAX_RETRIES`. -/
def MAX_RETRIES : Nat := 3

/-- `CONFIG.RETRY_DELAY` in milliseconds. -/
def RETRY_DELAY : Nat := 10000

/-- `CONFIG.BATCH_SIZE`. -/
def BATCH_SIZE : Nat := 10

/-- Text is modelled as a list of characters. -/
abbrev Str := List Char

/-- Characters removed by JS `String.prototype.trim` (the common whitespace). -/
def isWS (c : Char) : Bool := c == ' ' || c == '\t' || c == '\n' || c == '\r'

/-- Model of `s.trim()`. -/
def trimChars (s : Str) : Str :=
  ((s.dropWhile isWS).reverse.dropWhile isWS).reverse

/-- Model of `s.replace(/,/g, '')`. -/
def stripCommas (s : Str) : Str := s.filter (fun c => c != ',')

/-- Model of the test `/^\d+\.?\d*$/.test cleanAmount`: one or more digits,
then optionally a dot followed by zero or more digits. -/
def isNonNegDec (s : Str) : Bool :=
  let intPart := s.takeWhile Char.isDigit
  let rest := s.drop intPart.length
  !intPart.isEmpty &&
    (rest.isEmpty || (rest.head? == some '.' && rest.tail.all Char.isDigit))

/-- Numeric value of a decimal digit character. -/
def digitVal (c : Char) : Nat := c.toNat - '0'.toNat

/-- Value of a digit string read in base 10. -/
def natOfDigits (s : Str) : Nat := s.foldl (fun a c => 10 * a + digitVal c) 0

/-- Model of `parseFloat` on a string matching the pattern above: the exact
value of the decimal literal, as a rational. -/
def parseDec (s : Str) : ℚ :=
  let intPart := s.takeWhile Char.isDigit
  let rest := s.drop intPart.length
  (natOfDigits intPart : ℚ) +
    (natOfDigits rest.tail : ℚ) / ((10 : ℚ) ^ rest.tail.length)

/-- Lines 203-209 of `app.js`: trim the amount text, strip thousands
separators, keep the parsed value only when it matches the non-negative
decimal pattern, otherwise use 0. -/
def normalizeAmount (s : Str) : ℚ :=
  let clean := stripCommas (trimChars s)
  if isNonNegDec clean then parseDec clean else 0

/-- `RecordData`: what one scraped page yields for one CID, a month label to
amount mapping with JS-object insertion semantics. -/
abbrev RecData := List (Str × ℚ)

/-- JS object property assignment `d[m] = v`: overwrite in place when the key
exists, else append. -/
def insertMonth (d : RecData) (m : Str) (v : ℚ) : RecData :=
  if d.any (fun p => decide (p.1 = m)) then
    d.map (fun p => if p.1 = m then (m, v) else p)
  else d ++ [(m, v)]

/-- Lines 188-210: fold the data rows into a `RecData`, skipping rows with
fewer than 4 cells; cell 1 is the bill month, cell 3 the amount text. -/
def parseRows (dataRows : List (List Str)) : RecData :=
  dataRows.foldl
    (fun acc cells =>
      if cells.length < 4 then acc
      else insertMonth acc (trimChars (cells.getD 1 []))
             (normalizeAmount (cells.getD 3 [])))
    []

/-- Message of the error thrown at line 184 when the table has no data rows. -/
def noDataMsg : Str := "No data rows found".toList

/-- Lines 179-212: after the page interaction succeeds, drop the header row,
fail when no data rows remain, otherwise parse the rows. -/
def scrapeRows (rows : List (List Str)) : Except Str RecData :=
  let dataRows := rows.drop 1
  if dataRows.isEmpty then Except.error noDataMsg
  else Except.ok (parseRows dataRows)

/-- One attempt's interaction with the external page: either some step threw
an error (message), or the attempt reached the history table and read these
rows (header row included). -/
inductive AttemptInput where
  | err (msg : Str)
  | page (rows : List (List Str))
deriving DecidableEq, Repr

/-- Outcome of `processCID`: the scraped data, `null` (a stop signal was
observed at a checkpoint), or a thrown error (budget exhausted, or stop
observed right after a failed attempt). -/
inductive FetchResult where
  | ok (data : RecData)
  | null
  | exn (msg : Str)
deriving DecidableEq, Repr

/-- Result of a `processCID` call together with the number of attempts made,
the number of `RETRY_DELAY` sleeps performed, and the clock at return. -/
structure FetchOut where
  result : FetchResult
  attempts : Nat
  delays : Nat
  tEnd : Nat
deriving DecidableEq, Repr

/-- The world one `processCID` call sees: the stop flag as a stream over the
observation clock, connectivity at each retry iteration, and each attempt's
outcome. -/
structure FetchWorld where
  stop : Nat → Bool
  online : Nat → Bool
  attempt : Nat → AttemptInput

/-- What one attempt produces once started: the try block either reaches the
scraping step (lines 179-212) or throws earlier. -/
def attemptOutcome (w : FetchWorld) (k : Nat) : Except Str RecData :=
  match w.attempt k with
  | AttemptInput.page rows => scrapeRows rows
  | AttemptInput.err m => Except.error m

/-- Lines 134-224, the body of `processCID`, with `fuel` driving the
recursion (the wrapper passes `MAX_RETRIES`, matching the loop bound) and
`k` the `retries` counter.  Checkpoints, in program order: the loop guard
`retries < MAX_RETRIES && !shouldStop`; the connectivity check with its
post-wait stop check (lines 139-141); the attempt; and on a thrown error the
retry guard `retries < MAX_RETRIES && !shouldStop` (line 216), which either
sleeps `RETRY_DELAY` and loops or rethrows the error. -/
def processCIDGo (w : FetchWorld) : Nat → Nat → Nat → FetchOut
  | 0, _, t => ⟨FetchResult.null, 0, 0, t⟩
  | fuel + 1, k, t =>
    if k < MAX_RETRIES then
      if w.stop t then ⟨FetchResult.null, 0, 0, t + 1⟩
      else
        let t1 := t + 1
        let gate : Option Nat :=
          if w.online k then some t1
          else if w.stop t1 then none else some (t1 + 1)
        match gate with
        | none => ⟨FetchResult.null, 0, 0, t1 + 1⟩
        | some t2 =>
          match attemptOutcome w k with
          | Except.ok d => ⟨FetchResult.ok d, 1, 0, t2⟩
          | Except.error m =>
            if k + 1 < MAX_RETRIES ∧ w.stop t2 = false then
              let o := processCIDGo w fuel (k + 1) (t2 + 1)
              ⟨o.result, o.attempts + 1, o.delays + 1, o.tEnd⟩
            else ⟨FetchResult.exn m, 1, 0, t2 + 1⟩
    else ⟨FetchResult.null, 0, 0, t⟩

/-- `processCID(driver, cid)` starting at clock `t` with `retries = 0`. -/
def processCID (w : FetchWorld) (t : Nat) : FetchOut :=
  processCIDGo w MAX_RETRIES 0 t

/-- The persisted `status.json` object. -/
structure WStatus where
  last_processed : Nat
  total_processed : Nat
  total_failed : Nat
deriving DecidableEq, Repr

/-- The three persisted artifacts: the result workbook (one row per CID),
the failed-CID JSON list, and the status JSON. -/
structure Files where
  outFile : List (Str × RecData)
  failFile : List Str
  statusFile : WStatus
deriving DecidableEq, Repr

/-- Lines 64-70: `saveStatus` overwrites the status file. -/
def saveStatus (f : Files) (st : WStatus) : Files :=
  { f with statusFile := st }

/-- Lines 101-117: `saveData` rewrites the whole result workbook from the
in-memory `outputData`, and rewrites the failed list only when the in-memory
set is non-empty. -/
def saveData (f : Files) (out : List (Str × RecData)) (ns : List Str) : Files :=
  { f with outFile := out,
           failFile := if ns.isEmpty then f.failFile else ns }

/-- Observable events of one worker's run, in program order. -/
inductive Ev where
  | skip (cid : Str)
  | fetch (cid : Str)
  | fetchOk (cid : Str)
  | fetchFail (cid : Str)
  | stopBreak
  | pauseHalt
  | resumed
  | stopInPause
  | advance (cursor tp tf : Nat)
  | merge
  | noMoreWork
  | hung
deriving DecidableEq, Repr

/-- The world a worker run sees: the two control flags as streams over the
observation clock, connectivity and attempt outcomes per CID, and a bound
`patience` on how many pause-wait polls the model examines. -/
structure World where
  stop : Nat → Bool
  pause : Nat → Bool
  online : Str → Nat → Bool
  attempt : Str → Nat → AttemptInput
  patience : Nat

/-- In-memory state of one worker: accumulated `outputData`, `notScraped`,
the local `status` object, the running `failedCount`, the persisted files,
the clock, and the event trace. -/
structure WS where
  out : List (Str × RecData)
  failed : List Str
  status : WStatus
  failedCount : Nat
  files : Files
  t : Nat
  trace : List Ev

/-- Accumulator of the per-batch id loop: `outputData`, `notScraped`, the
lengths of `processedIds` and `failedIds`, the clock, and the events of this
batch. -/
structure BatchAcc where
  out : List (Str × RecData)
  failed : List Str
  nProc : Nat
  nFail : Nat
  t : Nat
  trace : List Ev

/-- JS `Set.prototype.add`: append when absent. -/
def addId (l : List Str) (c : Str) : List Str :=
  if c ∈ l then l else l ++ [c]

/-- Line 292's dedup test: the id already has a result row. -/
def hasRow (out : List (Str × RecData)) (cid : Str) : Prop :=
  ∃ r ∈ out, r.1 = cid

instance decHasRow (out : List (Str × RecData)) (cid : Str) :
    Decidable (hasRow out cid) := by
  unfold hasRow; exact inferInstance

/-- Line 292's full dedup test: result row present or id in the failed set. -/
def present (out : List (Str × RecData)) (failed : List Str) (cid : Str) : Prop :=
  hasRow out cid ∨ cid ∈ failed

instance decPresent (out : List (Str × RecData)) (failed : List Str) (cid : Str) :
    Decidable (present out failed cid) := by
  unfold present; exact inferInstance

/-- Lines 288-314: the per-id loop over one batch: break on stop, skip
already-present ids, otherwise call `processCID`; a truthy result is pushed
to `outputData`, anything else (null return or thrown error) adds the id to
`notScraped`. -/
def runIds (w : World) : List Str → BatchAcc → BatchAcc
  | [], acc => acc
  | cid :: rest, acc =>
    if w.stop acc.t then
      { acc with t := acc.t + 1, trace := acc.trace ++ [Ev.stopBreak] }
    else
      let acc1 : BatchAcc := { acc with t := acc.t + 1 }
      if present acc1.out acc1.failed cid then
        runIds w rest { acc1 with trace := acc1.trace ++ [Ev.skip cid] }
      else
        let o := processCID ⟨w.stop, w.online cid, w.attempt cid⟩ acc1.t
        match o.result with
        | FetchResult.ok d =>
          runIds w rest
            { acc1 with out := acc1.out ++ [(cid, d)], nProc := acc1.nProc + 1,
                        t := o.tEnd,
                        trace := acc1.trace ++ [Ev.fetch cid, Ev.fetchOk cid] }
        | _ =>
          runIds w rest
            { acc1 with failed := addId acc1.failed cid, nFail := acc1.nFail + 1,
                        t := o.tEnd,
                        trace := acc1.trace ++ [Ev.fetch cid, Ev.fetchFail cid] }

/-- Lines 122-124: the poll loop `while (shouldPause && !shouldStop)`,
bounded by fuel; returns the stop flag at loop exit and the new clock, or
`none` when the examined window ends before the wait resolves. -/
def pauseWait (w : World) : Nat → Nat → Option (Bool × Nat)
  | 0, _ => none
  | fuel + 1, t =>
    if w.pause t && !w.stop t then pauseWait w fuel (t + 1)
    else some (w.stop t, t + 1)

/-- Lines 119-132, `checkPause`: returns `(halted, stopObserved, clock)`. -/
def checkPause (w : World) (t : Nat) : Option (Bool × Bool × Nat) :=
  if w.pause t then
    match pauseWait w w.patience (t + 1) with
    | none => none
    | some (st, u) => some (true, st, u)
  else some (false, false, t + 1)

/-- Result of one outer-loop iteration: exit the loop or continue. -/
inductive StepRes where
  | done (s : WS)
  | cont (s : WS)

/-- One iteration of the `while (!shouldStop)` loop of `workerThread`
(lines 267-330): stop guard, pause checkpoint, no-more-work check, batch
slice, per-id loop, status update and save, then the conditional data save. -/
def workerStep (w : World) (cids : List Str) (s : WS) : StepRes :=
  if w.stop s.t then StepRes.done { s with t := s.t + 1 }
  else
    match checkPause w (s.t + 1) with
    | none => StepRes.done { s with trace := s.trace ++ [Ev.pauseHalt, Ev.hung] }
    | some (halted, stopObs, t1) =>
      let tr0 : List Ev :=
        if halted then
          if stopObs then [Ev.pauseHalt, Ev.stopInPause]
          else [Ev.pauseHalt, Ev.resumed]
        else []
      let s1 : WS := { s with t := t1, trace := s.trace ++ tr0 }
      if stopObs then StepRes.done s1
      else
        let batchStart := s1.status.last_processed
        let batchEnd := min (batchStart + BATCH_SIZE) cids.length
        if cids.length ≤ batchStart then
          StepRes.done { s1 with trace := s1.trace ++ [Ev.noMoreWork] }
        else
          let batch := (cids.drop batchStart).take (batchEnd - batchStart)
          let b := runIds w batch ⟨s1.out, s1.failed, 0, 0, s1.t, []⟩
          let fc := s1.failedCount + b.nFail
          let st : WStatus := ⟨batchEnd, s1.status.total_processed + b.nProc, fc⟩
          let doMerge : Bool := decide (0 < b.nProc) || decide (0 < b.nFail)
          let files1 := saveStatus s1.files st
          let files2 := if doMerge then saveData files1 b.out b.failed else files1
          StepRes.cont
            { out := b.out, failed := b.failed, status := st, failedCount := fc,
              files := files2, t := b.t,
              trace := s1.trace ++ b.trace ++ [Ev.advance batchEnd st.total_processed fc]
                       ++ (if doMerge then [Ev.merge] else []) }

/-- The outer `while (!shouldStop)` loop, driven by fuel. -/
def workerThreadLoop (w : World) (cids : List Str) : Nat → WS → WS
  | 0, s => { s with trace := s.trace ++ [Ev.hung] }
  | fuel + 1, s =>
    match workerStep w cids s with
    | StepRes.done s1 => s1
    | StepRes.cont s1 => workerThreadLoop w cids fuel s1

/-- Worker startup, lines 256-265: `outputData` is a copy of the loaded
result rows, `notScraped` a copy of the loaded failed set, `status` the
loaded status object and `failedCount` its `total_failed`. -/
def initWS (ex : Files) (t0 : Nat) : WS :=
  { out := ex.outFile, failed := ex.failFile, status := ex.statusFile,
    failedCount := ex.statusFile.total_failed, files := ex, t := t0, trace := [] }

/-- Model of `workerThread` after browser setup (lines 256-330): load the
persisted files and drive the batch loop.  Fuel `cids.length + 1` covers
every reachable iteration count, since each continuing iteration strictly
advances the cursor towards `cids.length`. -/
def workerThread (w : World) (cids : List Str) (ex : Files) (t0 : Nat) : WS :=
  workerThreadLoop w cids (cids.length + 1) (initWS ex t0)

/-- Cursor value carried by an `advance` event. -/
def advOf : Ev → Option Nat
  | Ev.advance c _ _ => some c
  | _ => none

/-- Cursor values of the successive `saveStatus` calls of a trace. -/
def advCursors (tr : List Ev) : List Nat := tr.filterMap advOf

/-- CID carried by a `fetch` event. -/
def fetchOf : Ev → Option Str
  | Ev.fetch c => some c
  | _ => none

/-- CIDs of the `processCID` invocations of a trace, in order. -/
def fetchedCids (tr : List Ev) : List Str := tr.filterMap fetchOf

/-- CIDs of the result rows, in row order. -/
def outIds (out : List (Str × RecData)) : List Str := out.map Prod.fst

/-- Events the per-id batch loop can append. -/
def isBatchEv : Ev → Bool
  | Ev.skip _ => true
  | Ev.fetch _ => true
  | Ev.fetchOk _ => true
  | Ev.fetchFail _ => true
  | Ev.stopBreak => true
  | _ => false

/-- Control-flow events the outer loop appends outside the batch loop and
outside the advance/merge pair. -/
def isCtrlEv : Ev → Bool
  | Ev.pauseHalt => true
  | Ev.resumed => true
  | Ev.stopInPause => true
  | Ev.noMoreWork => true
  | Ev.hung => true
  | _ => false

lemma advOf_of_batchEv {e : Ev} (h : isBatchEv e = true) : advOf e = none := by
  cases e <;> simp_all [isBatchEv, advOf]

lemma advOf_of_ctrlEv {e : Ev} (h : isCtrlEv e = true) : advOf e = none := by
  cases e <;> simp_all [isCtrlEv, advOf]

lemma advCursors_append (a b : List Ev) :
    advCursors (a ++ b) = advCursors a ++ advCursors b :=
  List.filterMap_append ..

lemma advCursors_eq_nil_of_batchEv {d : List Ev} (h : ∀ e ∈ d, isBatchEv e = true) :
    advCursors d = [] := by
  induction d with
  | nil => rfl
  | cons e d ih =>
    simp only [advCursors, List.filterMap_cons]
    rw [advOf_of_batchEv (h e (by simp))]
    exact ih fun x hx => h x (by simp [hx])

lemma advCursors_eq_nil_of_ctrlEv {d : List Ev} (h : ∀ e ∈ d, isCtrlEv e = true) :
    advCursors d = [] := by
  induction d with
  | nil => rfl
  | cons e d ih =>
    simp only [advCursors, List.filterMap_cons]
    rw [advOf_of_ctrlEv (h e (by simp))]
    exact ih fun x hx => h x (by simp [hx])

lemma addId_mem_self (l : List Str) (c : Str) : c ∈ addId l c := by
  unfold addId; split <;> simp_all

lemma addId_mem_of (l : List Str) (c x : Str) (h : x ∈ l) : x ∈ addId l c := by
  unfold addId; split <;> simp_all

lemma mem_addId {l : List Str} {c x : Str} (h : x ∈ addId l c) : x ∈ l ∨ x = c := by
  unfold addId at h; split at h <;> simp_all

lemma hasRow_mono {out : List (Str × RecData)} {d : List (Str × RecData)} {cid : Str}
    (h : hasRow out cid) : hasRow (out ++ d) cid := by
  obtain ⟨r, hr, he⟩ := h
  exact ⟨r, by simp [hr], he⟩

/-- The batch loop only appends to the trace, and only batch events. -/
lemma runIds_trace_shape (w : World) (l : List Str) (acc : BatchAcc) :
    ∃ d, (runIds w l acc).trace = acc.trace ++ d ∧ ∀ e ∈ d, isBatchEv e = true := by
  induction l generalizing acc with
  | nil => exact ⟨[], by simp [runIds]⟩
  | cons cid rest ih =>
    simp only [runIds]
    split
    · exact ⟨[Ev.stopBreak], by simp [isBatchEv]⟩
    · split
      · obtain ⟨d, hd, hall⟩ := ih _
        refine ⟨Ev.skip cid :: d, by rw [hd]; simp, ?_⟩
        intro e he
        rcases List.mem_cons.mp he with h | h
        · simp [h, isBatchEv]
        · exact hall e h
      · split
        · obtain ⟨d, hd, hall⟩ := ih _
          refine ⟨Ev.fetch cid :: Ev.fetchOk cid :: d, by rw [hd]; simp, ?_⟩
          intro e he
          rcases List.mem_cons.mp he with h | h
          · simp [h, isBatchEv]
          rcases List.mem_cons.mp h with h | h
          · simp [h, isBatchEv]
          · exact hall e h
        · obtain ⟨d, hd, hall⟩ := ih _
          refine ⟨Ev.fetch cid :: Ev.fetchFail cid :: d, by rw [hd]; simp, ?_⟩
          intro e he
          rcases List.mem_cons.mp he with h | h
          · simp [h, isBatchEv]
          rcases List.mem_cons.mp h with h | h
          · simp [h, isBatchEv]
          · exact hall e h

/-- The batch loop only appends result rows. -/
lemma runIds_out_shape (w : World) (l : List Str) (acc : BatchAcc) :
    ∃ d, (runIds w l acc).out = acc.out ++ d := by
  induction l generalizing acc with
  | nil => exact ⟨[], by simp [runIds]⟩
  | cons cid rest ih =>
    simp only [runIds]
    split
    · exact ⟨[], by simp⟩
    · split
      · exact ih _
      · split
        · rename_i x rdata heq
          obtain ⟨d, hd⟩ := ih _
          exact ⟨(cid, rdata) :: d, by rw [hd]; simp⟩
        · exact ih _

/-- The batch loop only adds to the failed set. -/
lemma runIds_failed_mono (w : World) (l : List Str) (acc : BatchAcc) {cid : Str}
    (h : cid ∈ acc.failed) : cid ∈ (runIds w l acc).failed := by
  induction l generalizing acc with
  | nil => simpa [runIds]
  | cons c rest ih =>
    simp only [runIds]
    split
    · simpa
    · split
      · exact ih _ h
      · split
        · exact ih _ h
        · exact ih _ (addId_mem_of _ _ _ h)

lemma runIds_present_mono (w : World) (l : List Str) (acc : BatchAcc) {cid : Str}
    (h : present acc.out acc.failed cid) :
    present (runIds w l acc).out (runIds w l acc).failed cid := by
  rcases h with h | h
  · obtain ⟨d, hd⟩ := runIds_out_shape w l acc
    exact Or.inl (hd ▸ hasRow_mono h)
  · exact Or.inr (runIds_failed_mono w l acc h)

lemma runIds_trace_mono (w : World) (l : List Str) (acc : BatchAcc) {e : Ev}
    (h : e ∈ acc.trace) : e ∈ (runIds w l acc).trace := by
  obtain ⟨d, hd, -⟩ := runIds_trace_shape w l acc
  rw [hd]; exact List.mem_append_left d h

/-- A fetch event produced by the batch loop names an id of the batch. -/
lemma runIds_fetch_mem (w : World) (l : List Str) (acc : BatchAcc) {cid : Str}
    (h : Ev.fetch cid ∈ (runIds w l acc).trace) :
    Ev.fetch cid ∈ acc.trace ∨ cid ∈ l := by
  induction l generalizing acc with
  | nil => simp only [runIds] at h; exact Or.inl h
  | cons c rest ih =>
    simp only [runIds] at h
    split at h
    · simp only [List.mem_append, List.mem_singleton] at h
      rcases h with h | h
      · exact Or.inl h
      · cases h
    · split at h
      · rcases ih _ h with h | h
        · simp only [List.mem_append, List.mem_singleton] at h
          rcases h with h | h
          · exact Or.inl h
          · cases h
        · exact Or.inr (by simp [h])
      · split at h
        · rcases ih _ h with h | h
          · simp only [List.mem_append, List.mem_cons, List.not_mem_nil, or_false] at h
            rcases h with h | h | h
            · exact Or.inl h
            · cases h; exact Or.inr (by simp)
            · cases h
          · exact Or.inr (by simp [h])
        · rcases ih _ h with h | h
          · simp only [List.mem_append, List.mem_cons, List.not_mem_nil, or_false] at h
            rcases h with h | h | h
            · exact Or.inl h
            · cases h; exact Or.inr (by simp)
            · cases h
          · exact Or.inr (by simp [h])

/-- Dedup: an id already present when the batch loop starts is never fetched
by it (the spec's dedup-idempotence property at batch level). -/
lemma runIds_no_fetch_of_present (w : World) (l : List Str) (acc : BatchAcc) {cid : Str}
    (hp : present acc.out acc.failed cid) (hn : Ev.fetch cid ∉ acc.trace) :
    Ev.fetch cid ∉ (runIds w l acc).trace := by
  induction l generalizing acc with
  | nil => simpa [runIds]
  | cons c rest ih =>
    simp only [runIds]
    split
    · simp only [List.mem_append, List.mem_singleton]
      rintro (h | h)
      · exact hn h
      · cases h
    · split
      · exact ih _ hp (by
          simp only [List.mem_append, List.mem_singleton]
          rintro (h | h)
          · exact hn h
          · cases h)
      · rename_i hnp
        by_cases hc : c = cid
        · exact absurd (hc ▸ hp) hnp
        · split
          · exact ih _ (Or.casesOn hp (fun h => Or.inl (hasRow_mono h)) Or.inr) (by
              simp only [List.mem_append, List.mem_cons, List.not_mem_nil, or_false]
              rintro (h | h | h)
              · exact hn h
              · exact hc (Ev.fetch.inj h).symm
              · cases h)
          · exact ih _ (Or.casesOn hp (fun h => Or.inl h) (fun h => Or.inr (addId_mem_of _ _ _ h))) (by
              simp only [List.mem_append, List.mem_cons, List.not_mem_nil, or_false]
              rintro (h | h | h)
              · exact hn h
              · exact hc (Ev.fetch.inj h).symm
              · cases h)

/-- When no stop signal is ever up, the batch loop leaves every id of the
batch either with a result row or in the failed set. -/
lemma runIds_covers (w : World) (hstop : ∀ t, w.stop t = false)
    (l : List Str) (acc : BatchAcc) :
    ∀ cid ∈ l, present (runIds w l acc).out (runIds w l acc).failed cid := by
  induction l generalizing acc with
  | nil => simp
  | cons c rest ih =>
    intro cid hcid
    by_cases hp : present acc.out acc.failed c
    · simp only [runIds, hstop, Bool.false_eq_true, if_false, if_pos hp]
      rcases List.mem_cons.mp hcid with rfl | hmem
      · exact runIds_present_mono w rest _ hp
      · exact ih _ cid hmem
    · rcases hr : (processCID ⟨w.stop, w.online c, w.attempt c⟩ (acc.t + 1)).result with d | _ | m
      all_goals simp only [runIds, hstop, Bool.false_eq_true, if_false, if_neg hp, hr]
      · rcases List.mem_cons.mp hcid with rfl | hmem
        · exact runIds_present_mono w rest _ (Or.inl ⟨(cid, d), by simp, rfl⟩)
        · exact ih _ cid hmem
      · rcases List.mem_cons.mp hcid with rfl | hmem
        · exact runIds_present_mono w rest _ (Or.inr (addId_mem_self _ _))
        · exact ih _ cid hmem
      · rcases List.mem_cons.mp hcid with rfl | hmem
        · exact runIds_present_mono w rest _ (Or.inr (addId_mem_self _ _))
        · exact ih _ cid hmem

/-- The batch loop never duplicates a result row: a row is pushed only when
the dedup check found no row for that id. -/
lemma runIds_nodup (w : World) (l : List Str) (acc : BatchAcc)
    (h : (outIds acc.out).Nodup) : (outIds (runIds w l acc).out).Nodup := by
  induction l generalizing acc with
  | nil => simpa [runIds]
  | cons c rest ih =>
    simp only [runIds]
    split
    · simpa
    · split
      · exact ih _ h
      · rename_i hnp
        split
        · refine ih _ ?_
          simp only [outIds, List.map_append, List.map_cons, List.map_nil]
          rw [List.nodup_append]
          refine ⟨h, List.nodup_singleton _, ?_⟩
          intro a ha hb
          simp only [List.mem_singleton] at hb
          subst hb
          simp only [outIds, List.mem_map] at ha
          obtain ⟨r, hr, he⟩ := ha
          exact hnp (Or.inl ⟨r, hr, he⟩)
        · exact ih _ h

/-- Ids in the failed set after the batch loop were failed before it or have
a fetch-failure event in its trace. -/
lemma runIds_failed_sub (w : World) (l : List Str) (acc : BatchAcc) {cid : Str}
    (h : cid ∈ (runIds w l acc).failed) :
    cid ∈ acc.failed ∨ Ev.fetchFail cid ∈ (runIds w l acc).trace := by
  induction l generalizing acc with
  | nil => simp only [runIds] at h ⊢; exact Or.inl h
  | cons c rest ih =>
    by_cases hs : w.stop acc.t = true
    · simp only [runIds, hs, if_true] at h ⊢
      exact Or.inl h
    · by_cases hp : present acc.out acc.failed c
      · simp only [runIds, hs, Bool.false_eq_true, if_false, if_pos hp] at h ⊢
        exact ih _ h
      · rcases hr : (processCID ⟨w.stop, w.online c, w.attempt c⟩ (acc.t + 1)).result with d | _ | m
        all_goals simp only [runIds, hs, Bool.false_eq_true, if_false, if_neg hp, hr] at h ⊢
        · exact ih _ h
        all_goals
          rcases ih _ h with h | h
          · rcases mem_addId h with h | rfl
            · exact Or.inl h
            · exact Or.inr (runIds_trace_mono w rest _ (by simp))
          · exact Or.inr h

/-- A fetch-failure event of the batch loop puts its id in the failed set. -/
lemma runIds_fetchFail_failed (w : World) (l : List Str) (acc : BatchAcc) {cid : Str}
    (h : Ev.fetchFail cid ∈ (runIds w l acc).trace) :
    Ev.fetchFail cid ∈ acc.trace ∨ cid ∈ (runIds w l acc).failed := by
  induction l generalizing acc with
  | nil => simp only [runIds] at h ⊢; exact Or.inl h
  | cons c rest ih =>
    by_cases hs : w.stop acc.t = true
    · simp only [runIds, hs, if_true] at h ⊢
      simp only [List.mem_append, List.mem_cons, List.not_mem_nil, or_false] at h
      rcases h with h | h
      · exact Or.inl h
      · cases h
    · by_cases hp : present acc.out acc.failed c
      · simp only [runIds, hs, Bool.false_eq_true, if_false, if_pos hp] at h ⊢
        rcases ih _ h with h | h
        · simp only [List.mem_append, List.mem_cons, List.not_mem_nil, or_false] at h
          rcases h with h | h
          · exact Or.inl h
          · cases h
        · exact Or.inr h
      · rcases hr : (processCID ⟨w.stop, w.online c, w.attempt c⟩ (acc.t + 1)).result with d | _ | m
        all_goals simp only [runIds, hs, Bool.false_eq_true, if_false, if_neg hp, hr] at h ⊢
        · rcases ih _ h with h | h
          · simp only [List.mem_append, List.mem_cons, List.not_mem_nil, or_false] at h
            rcases h with h | h | h
            · exact Or.inl h
            · cases h
            · cases h
          · exact Or.inr h
        all_goals
          rcases ih _ h with h | h
          · simp only [List.mem_append, List.mem_cons, List.not_mem_nil, or_false] at h
            rcases h with h | h | h
            · exact Or.inl h
            · cases h
            · cases h; exact Or.inr (runIds_failed_mono w rest _ (addId_mem_self _ _))
          · exact Or.inr h

lemma runIds_nFail_mono (w : World) (l : List Str) (acc : BatchAcc) :
    acc.nFail ≤ (runIds w l acc).nFail := by
  induction l generalizing acc with
  | nil => simp [runIds]
  | cons c rest ih =>
    by_cases hs : w.stop acc.t = true
    · simp [runIds, hs]
    · by_cases hp : present acc.out acc.failed c
      · simp only [runIds, hs, Bool.false_eq_true, if_false, if_pos hp]
        exact ih { acc with t := acc.t + 1, trace := acc.trace ++ [Ev.skip c] }
      · rcases hr : (processCID ⟨w.stop, w.online c, w.attempt c⟩ (acc.t + 1)).result with d | _ | m
        all_goals simp only [runIds, hs, Bool.false_eq_true, if_false, if_neg hp, hr]
        · exact ih { acc with
            out := acc.out ++ [(c, d)], nProc := acc.nProc + 1,
            t := (processCID ⟨w.stop, w.online c, w.attempt c⟩ (acc.t + 1)).tEnd,
            trace := acc.trace ++ [Ev.fetch c, Ev.fetchOk c] }
        all_goals refine le_trans (Nat.le_succ acc.nFail) ?_
        all_goals exact ih { acc with
          failed := addId acc.failed c, nFail := acc.nFail + 1,
          t := (processCID ⟨w.stop, w.online c, w.attempt c⟩ (acc.t + 1)).tEnd,
          trace := acc.trace ++ [Ev.fetch c, Ev.fetchFail c] }

lemma runIds_nProc_mono (w : World) (l : List Str) (acc : BatchAcc) :
    acc.nProc ≤ (runIds w l acc).nProc := by
  induction l generalizing acc with
  | nil => simp [runIds]
  | cons c rest ih =>
    by_cases hs : w.stop acc.t = true
    · simp [runIds, hs]
    · by_cases hp : present acc.out acc.failed c
      · simp only [runIds, hs, Bool.false_eq_true, if_false, if_pos hp]
        exact ih { acc with t := acc.t + 1, trace := acc.trace ++ [Ev.skip c] }
      · rcases hr : (processCID ⟨w.stop, w.online c, w.attempt c⟩ (acc.t + 1)).result with d | _ | m
        all_goals simp only [runIds, hs, Bool.false_eq_true, if_false, if_neg hp, hr]
        · refine le_trans (Nat.le_succ acc.nProc) ?_
          exact ih { acc with
            out := acc.out ++ [(c, d)], nProc := acc.nProc + 1,
            t := (processCID ⟨w.stop, w.online c, w.attempt c⟩ (acc.t + 1)).tEnd,
            trace := acc.trace ++ [Ev.fetch c, Ev.fetchOk c] }
        all_goals exact ih { acc with
          failed := addId acc.failed c, nFail := acc.nFail + 1,
          t := (processCID ⟨w.stop, w.online c, w.attempt c⟩ (acc.t + 1)).tEnd,
          trace := acc.trace ++ [Ev.fetch c, Ev.fetchFail c] }

/-- When the batch loop pushes no result row, `outputData` is unchanged. -/
lemma runIds_out_eq_of_nProc (w : World) (l : List Str) (acc : BatchAcc)
    (h : (runIds w l acc).nProc = acc.nProc) :
    (runIds w l acc).out = acc.out := by
  induction l generalizing acc with
  | nil => simp [runIds]
  | cons c rest ih =>
    by_cases hs : w.stop acc.t = true
    · simp only [runIds, hs, if_true]
    · by_cases hp : present acc.out acc.failed c
      · simp only [runIds, hs, Bool.false_eq_true, if_false, if_pos hp] at h ⊢
        exact ih _ h
      · rcases hr : (processCID ⟨w.stop, w.online c, w.attempt c⟩ (acc.t + 1)).result with d | _ | m
        all_goals simp only [runIds, hs, Bool.false_eq_true, if_false, if_neg hp, hr] at h ⊢
        · exfalso
          have hm := runIds_nProc_mono w rest
            { acc with
              out := acc.out ++ [(c, d)], nProc := acc.nProc + 1,
              t := (processCID ⟨w.stop, w.online c, w.attempt c⟩ (acc.t + 1)).tEnd,
              trace := acc.trace ++ [Ev.fetch c, Ev.fetchOk c] }
          simp only at hm
          omega
        all_goals exact ih _ h

/-- When the batch loop records no failure, the failed set is unchanged. -/
lemma runIds_failed_eq_of_nFail (w : World) (l : List Str) (acc : BatchAcc)
    (h : (runIds w l acc).nFail = acc.nFail) :
    (runIds w l acc).failed = acc.failed := by
  induction l generalizing acc with
  | nil => simp [runIds]
  | cons c rest ih =>
    by_cases hs : w.stop acc.t = true
    · simp only [runIds, hs, if_true]
    · by_cases hp : present acc.out acc.failed c
      · simp only [runIds, hs, Bool.false_eq_true, if_false, if_pos hp] at h ⊢
        exact ih _ h
      · rcases hr : (processCID ⟨w.stop, w.online c, w.attempt c⟩ (acc.t + 1)).result with d | _ | m
        all_goals simp only [runIds, hs, Bool.false_eq_true, if_false, if_neg hp, hr] at h ⊢
        · exact ih _ h
        all_goals
          exfalso
          have hm := runIds_nFail_mono w rest
            { acc with
              failed := addId acc.failed c, nFail := acc.nFail + 1,
              t := (processCID ⟨w.stop, w.online c, w.attempt c⟩ (acc.t + 1)).tEnd,
              trace := acc.trace ++ [Ev.fetch c, Ev.fetchFail c] }
          simp only at hm
          omega

/-- Exiting iterations of the outer loop leave the worker state unchanged
apart from the clock and some appended control events. -/
lemma workerStep_done_spec (w : World) (cids : List Str) (s s1 : WS)
    (h : workerStep w cids s = StepRes.done s1) :
    s1.out = s.out ∧ s1.failed = s.failed ∧ s1.status = s.status ∧
    s1.failedCount = s.failedCount ∧ s1.files = s.files ∧
    ∃ d, s1.trace = s.trace ++ d ∧ ∀ e ∈ d, isCtrlEv e = true := by
  simp only [workerStep] at h
  split at h
  · cases h
    exact ⟨rfl, rfl, rfl, rfl, rfl, [], by simp, by simp⟩
  · split at h
    · cases h
      refine ⟨rfl, rfl, rfl, rfl, rfl, [Ev.pauseHalt, Ev.hung], rfl, ?_⟩
      intro e he
      rcases List.mem_cons.mp he with rfl | he
      · rfl
      rcases List.mem_cons.mp he with rfl | he
      · rfl
      · cases he
    · rename_i halted stopObs t1 hcp
      split at h
      · cases h
        refine ⟨rfl, rfl, rfl, rfl, rfl,
          (if halted = true then [Ev.pauseHalt, Ev.stopInPause] else []), rfl, ?_⟩
        split
        · intro e he
          rcases List.mem_cons.mp he with rfl | he
          · rfl
          rcases List.mem_cons.mp he with rfl | he
          · rfl
          · cases he
        · simp
      · split at h
        · cases h
          refine ⟨rfl, rfl, rfl, rfl, rfl,
            (if halted = true then [Ev.pauseHalt, Ev.resumed] else []) ++ [Ev.noMoreWork],
            by simp, ?_⟩
          intro e he
          rcases List.mem_append.mp he with he | he
          · split at he
            · rcases List.mem_cons.mp he with rfl | he
              · rfl
              rcases List.mem_cons.mp he with rfl | he
              · rfl
              · cases he
            · cases he
          · rcases List.mem_cons.mp he with rfl | he
            · rfl
            · cases he
        · cases h

/-- Anatomy of a continuing iteration of the outer loop: some control events,
one batch-loop run from the current cursor, a `saveStatus` with the batch end
as new cursor, and a `saveData` exactly when the batch changed something. -/
lemma workerStep_cont_spec (w : World) (cids : List Str) (s s1 : WS)
    (h : workerStep w cids s = StepRes.cont s1) :
    ∃ (u : Nat) (tr0 mrg : List Ev) (b : BatchAcc),
      (∀ e ∈ tr0, isCtrlEv e = true) ∧ (∀ e ∈ mrg, e = Ev.merge) ∧
      s.status.last_processed < cids.length ∧
      b = runIds w ((cids.drop s.status.last_processed).take
            (min (s.status.last_processed + BATCH_SIZE) cids.length
              - s.status.last_processed))
            ⟨s.out, s.failed, 0, 0, u, []⟩ ∧
      s1.out = b.out ∧ s1.failed = b.failed ∧
      s1.status = ⟨min (s.status.last_processed + BATCH_SIZE) cids.length,
                   s.status.total_processed + b.nProc, s.failedCount + b.nFail⟩ ∧
      s1.failedCount = s.failedCount + b.nFail ∧
      s1.files.statusFile = s1.status ∧
      ((s1.files.outFile = b.out ∧
        s1.files.failFile = (if b.failed.isEmpty then s.files.failFile else b.failed)) ∨
       (s1.files.outFile = s.files.outFile ∧ s1.files.failFile = s.files.failFile ∧
        b.nProc = 0 ∧ b.nFail = 0)) ∧
      s1.trace = s.trace ++ tr0 ++ b.trace
        ++ [Ev.advance (min (s.status.last_processed + BATCH_SIZE) cids.length)
              (s.status.total_processed + b.nProc) (s.failedCount + b.nFail)] ++ mrg := by
  by_cases hs : w.stop s.t = true
  · simp only [workerStep, hs, if_true] at h
    cases h
  · rcases hcp : checkPause w (s.t + 1) with _ | ⟨halted, stopObs, t1⟩
    · simp only [workerStep, hs, Bool.false_eq_true, if_false, hcp] at h
      cases h
    · by_cases hso : stopObs = true
      · simp only [workerStep, hs, Bool.false_eq_true, if_false, hcp, hso, if_true] at h
        cases h
      · by_cases hlt : cids.length ≤ s.status.last_processed
        · simp only [workerStep, hs, Bool.false_eq_true, if_false, hcp, hso, if_pos hlt] at h
          cases h
        · by_cases hdm : (decide (0 < (runIds w
              ((cids.drop s.status.last_processed).take
                (min (s.status.last_processed + BATCH_SIZE) cids.length
                  - s.status.last_processed))
              ⟨s.out, s.failed, 0, 0, t1, []⟩).nProc) ||
            decide (0 < (runIds w
              ((cids.drop s.status.last_processed).take
                (min (s.status.last_processed + BATCH_SIZE) cids.length
                  - s.status.last_processed))
              ⟨s.out, s.failed, 0, 0, t1, []⟩).nFail)) = true
          · simp only [workerStep, hs, Bool.false_eq_true, if_false, hcp, hso,
              if_neg hlt, hdm, if_true] at h
            cases h
            refine ⟨t1, (if halted = true then [Ev.pauseHalt, Ev.resumed] else []),
              [Ev.merge], _, ?_, by simp, by omega, rfl, rfl, rfl, rfl, rfl,
              by simp [saveData, saveStatus], Or.inl ⟨by simp [saveData, saveStatus],
              by simp [saveData, saveStatus]⟩, rfl⟩
            split
            · intro e he
              rcases List.mem_cons.mp he with rfl | he
              · rfl
              rcases List.mem_cons.mp he with rfl | he
              · rfl
              · cases he
            · simp
          · simp only [workerStep, hs, Bool.false_eq_true, if_false, hcp, hso,
              if_neg hlt, hdm, if_false] at h
            cases h
            have hz : ¬ (0 < (runIds w
                ((cids.drop s.status.last_processed).take
                  (min (s.status.last_processed + BATCH_SIZE) cids.length
                    - s.status.last_processed))
                ⟨s.out, s.failed, 0, 0, t1, []⟩).nProc) ∧
              ¬ (0 < (runIds w
                ((cids.drop s.status.last_processed).take
                  (min (s.status.last_processed + BATCH_SIZE) cids.length
                    - s.status.last_processed))
                ⟨s.out, s.failed, 0, 0, t1, []⟩).nFail) := by
              constructor
              · intro hc
                exact hdm (by simp [decide_eq_true_iff.mpr hc])
              · intro hc
                exact hdm (by simp [decide_eq_true_iff.mpr hc])
            refine ⟨t1, (if halted = true then [Ev.pauseHalt, Ev.resumed] else []),
              [], _, ?_, by simp, by omega, rfl, rfl, rfl, rfl, rfl,
              by simp [saveStatus], Or.inr ⟨by simp [saveStatus], by simp [saveStatus],
              by omega, by omega⟩, by simp⟩
            split
            · intro e he
              rcases List.mem_cons.mp he with rfl | he
              · rfl
              rcases List.mem_cons.mp he with rfl | he
              · rfl
              · cases he
            · simp

lemma ctrlEv_ne_fetch {e : Ev} {c : Str} (h : isCtrlEv e = true) : e ≠ Ev.fetch c := by
  intro he; subst he; simp [isCtrlEv] at h

lemma ctrlEv_ne_fetchFail {e : Ev} {c : Str} (h : isCtrlEv e = true) : e ≠ Ev.fetchFail c := by
  intro he; subst he; simp [isCtrlEv] at h

lemma batchEv_ne_adv {e : Ev} {a b c : Nat} (h : isBatchEv e = true) : e ≠ Ev.advance a b c := by
  intro he; subst he; simp [isBatchEv] at h

lemma advCursors_eq_nil_of_merge {d : List Ev} (h : ∀ e ∈ d, e = Ev.merge) :
    advCursors d = [] := by
  induction d with
  | nil => rfl
  | cons e d ih =>
    simp only [advCursors, List.filterMap_cons]
    rw [h e (by simp)]
    exact ih fun x hx => h x (by simp [hx])

/-- Membership in a batch slice names an index at or past the slice start. -/
lemma mem_slice {l : List Str} {a : Str} {n k : Nat} (h : a ∈ (l.drop n).take k) :
    ∃ j, n ≤ j ∧ ∃ hj : j < l.length, l.get ⟨j, hj⟩ = a := by
  have h1 : a ∈ l.drop n := List.mem_of_mem_take h
  obtain ⟨i, hi, he⟩ := List.mem_iff_getElem.mp h1
  have hlen : n + i < l.length := by
    simp only [List.length_drop] at hi
    omega
  refine ⟨n + i, by omega, hlen, ?_⟩
  rw [List.get_eq_getElem, ← List.getElem_drop l]
  exact he

/-- An index inside the slice window has its element in the slice. -/
lemma slice_get_mem {l : List Str} {n k i : Nat} (hn : n ≤ i) (hik : i < n + k)
    (hi : i < l.length) : l.get ⟨i, hi⟩ ∈ (l.drop n).take k := by
  have h1 : i - n < ((l.drop n).take k).length := by
    simp only [List.length_take, List.length_drop]
    omega
  have h2 : ((l.drop n).take k)[i - n] = l[i] := by
    rw [List.getElem_take, List.getElem_drop]
    congr 1
    omega
  have h3 : l.get ⟨i, hi⟩ = l[i] := rfl
  rw [h3, ← h2]
  exact List.getElem_mem _

/-- Dedup across a whole run: an id present in the loaded state is never
fetched by the worker loop. -/
lemma workerThreadLoop_no_fetch_of_present (w : World) (cids : List Str) :
    ∀ (fuel : Nat) (s : WS) (cid : Str),
      present s.out s.failed cid → Ev.fetch cid ∉ s.trace →
      Ev.fetch cid ∉ (workerThreadLoop w cids fuel s).trace := by
  intro fuel
  induction fuel with
  | zero =>
    intro s cid hp hn
    simp only [workerThreadLoop, List.mem_append, List.mem_cons, List.not_mem_nil,
      or_false]
    rintro (h | h)
    · exact hn h
    · cases h
  | succ fuel ih =>
    intro s cid hp hn
    simp only [workerThreadLoop]
    rcases hws : workerStep w cids s with s1 | s1
    · obtain ⟨ho, hf, hst, hfc, hfl, d, htr, hd⟩ := workerStep_done_spec w cids s s1 hws
      rw [htr]
      simp only [List.mem_append]
      rintro (h | h)
      · exact hn h
      · exact ctrlEv_ne_fetch (hd _ h) rfl
    · obtain ⟨u, tr0, mrg, b, htr0, hmrg, hlt, hb, ho, hf, hst, hfc, hsf, hfile, htr⟩ :=
        workerStep_cont_spec w cids s s1 hws
      refine ih s1 cid ?_ ?_
      · rw [ho, hf, hb]
        exact runIds_present_mono w _ _ hp
      · rw [htr]
        simp only [List.mem_append, List.mem_cons, List.not_mem_nil, or_false]
        rintro ((((h | h) | h) | h) | h)
        · exact hn h
        · exact ctrlEv_ne_fetch (htr0 _ h) rfl
        · rw [hb] at h
          exact runIds_no_fetch_of_present w _ _ hp (by simp) h
        · cases h
        · exact absurd (hmrg _ h) (by simp)

/-- Every id the worker loop fetches sits at an index at or past the cursor
the loop started from. -/
lemma workerThreadLoop_fetch_ge (w : World) (cids : List Str) (K : Nat) :
    ∀ (fuel : Nat) (s : WS) (cid : Str),
      K ≤ s.status.last_processed →
      Ev.fetch cid ∈ (workerThreadLoop w cids fuel s).trace →
      Ev.fetch cid ∈ s.trace ∨
        ∃ j, K ≤ j ∧ ∃ hj : j < cids.length, cids.get ⟨j, hj⟩ = cid := by
  intro fuel
  induction fuel with
  | zero =>
    intro s cid hK h
    simp only [workerThreadLoop, List.mem_append, List.mem_cons, List.not_mem_nil,
      or_false] at h
    rcases h with h | h
    · exact Or.inl h
    · cases h
  | succ fuel ih =>
    intro s cid hK h
    simp only [workerThreadLoop] at h
    rcases hws : workerStep w cids s with s1 | s1
    · rw [hws] at h
      obtain ⟨ho, hf, hst, hfc, hfl, d, htr, hd⟩ := workerStep_done_spec w cids s s1 hws
      rw [htr] at h
      rcases List.mem_append.mp h with h | h
      · exact Or.inl h
      · exact absurd rfl (ctrlEv_ne_fetch (hd _ h))
    · rw [hws] at h
      obtain ⟨u, tr0, mrg, b, htr0, hmrg, hlt, hb, ho, hf, hst, hfc, hsf, hfile, htr⟩ :=
        workerStep_cont_spec w cids s s1 hws
      have hK1 : K ≤ s1.status.last_processed := by
        rw [hst]
        simp only
        refine le_trans hK (le_min (by omega) (by omega))
      rcases ih s1 cid hK1 h with h | h
      · rw [htr] at h
        simp only [List.mem_append, List.mem_cons, List.not_mem_nil, or_false] at h
        rcases h with (((h | h) | h) | h) | h
        · exact Or.inl h
        · exact absurd rfl (ctrlEv_ne_fetch (htr0 _ h))
        · rw [hb] at h
          rcases runIds_fetch_mem w _ _ h with h | h
          · cases h
          · obtain ⟨j, hj1, hj2, hj3⟩ := mem_slice h
            exact Or.inr ⟨j, le_trans hK hj1, hj2, hj3⟩
        · cases h
        · exact absurd (hmrg _ h) (by simp)
      · exact Or.inr h

/-- The cursor values the loop persists are sorted and bounded by the
current cursor. -/
lemma workerThreadLoop_adv_sorted (w : World) (cids : List Str) :
    ∀ (fuel : Nat) (s : WS),
      List.Pairwise (· ≤ ·) (advCursors s.trace) →
      (∀ x ∈ advCursors s.trace, x ≤ s.status.last_processed) →
      List.Pairwise (· ≤ ·) (advCursors (workerThreadLoop w cids fuel s).trace) ∧
      (∀ x ∈ advCursors (workerThreadLoop w cids fuel s).trace,
        x ≤ (workerThreadLoop w cids fuel s).status.last_processed) := by
  intro fuel
  induction fuel with
  | zero =>
    intro s sorted bound
    simp only [workerThreadLoop]
    rw [advCursors_append]
    have : advCursors [Ev.hung] = [] := rfl
    rw [this, List.append_nil]
    exact ⟨sorted, bound⟩
  | succ fuel ih =>
    intro s sorted bound
    simp only [workerThreadLoop]
    rcases hws : workerStep w cids s with s1 | s1
    · obtain ⟨ho, hf, hst, hfc, hfl, d, htr, hd⟩ := workerStep_done_spec w cids s s1 hws
      rw [htr, advCursors_append, advCursors_eq_nil_of_ctrlEv hd, List.append_nil, hst]
      exact ⟨sorted, bound⟩
    · obtain ⟨u, tr0, mrg, b, htr0, hmrg, hlt, hb, ho, hf, hst, hfc, hsf, hfile, htr⟩ :=
        workerStep_cont_spec w cids s s1 hws
      have hbtr : advCursors b.trace = [] := by
        rw [hb]
        obtain ⟨d, hd, hall⟩ := runIds_trace_shape w
          ((cids.drop s.status.last_processed).take
            (min (s.status.last_processed + BATCH_SIZE) cids.length
              - s.status.last_processed)) ⟨s.out, s.failed, 0, 0, u, []⟩
        rw [hd]
        simp only [List.nil_append]
        exact advCursors_eq_nil_of_batchEv hall
      have hadv : advCursors s1.trace = advCursors s.trace
          ++ [min (s.status.last_processed + BATCH_SIZE) cids.length] := by
        rw [htr]
        rw [advCursors_append, advCursors_append, advCursors_append, advCursors_append]
        rw [advCursors_eq_nil_of_ctrlEv htr0, hbtr, advCursors_eq_nil_of_merge hmrg]
        simp [advCursors, advOf]
      have hle : s.status.last_processed
          ≤ min (s.status.last_processed + BATCH_SIZE) cids.length :=
        le_min (by omega) (by omega)
      have hcur : s1.status.last_processed
          = min (s.status.last_processed + BATCH_SIZE) cids.length := by
        rw [hst]
      refine ih s1 ?_ ?_
      · rw [hadv]
        rw [List.pairwise_append]
        refine ⟨sorted, List.pairwise_singleton _ _, ?_⟩
        intro a ha y hy
        simp only [List.mem_cons, List.not_mem_nil, or_false] at hy
        subst hy
        exact le_trans (bound a ha) hle
      · intro x hx
        rw [hadv] at hx
        rcases List.mem_append.mp hx with hx | hx
        · exact le_trans (le_trans (bound x hx) hle) (le_of_eq hcur.symm)
        · simp only [List.mem_cons, List.not_mem_nil, or_false] at hx
          subst hx
          exact le_of_eq hcur.symm

/-- Coverage invariant of the no-stop loop: every id below the cursor stays
either with a result row or in the failed set. -/
lemma workerThreadLoop_covers (w : World) (hstop : ∀ t, w.stop t = false)
    (cids : List Str) :
    ∀ (fuel : Nat) (s : WS),
      (∀ i (hi : i < cids.length), i < s.status.last_processed →
        present s.out s.failed (cids.get ⟨i, hi⟩)) →
      (∀ i (hi : i < cids.length),
        i < (workerThreadLoop w cids fuel s).status.last_processed →
        present (workerThreadLoop w cids fuel s).out
          (workerThreadLoop w cids fuel s).failed (cids.get ⟨i, hi⟩)) := by
  intro fuel
  induction fuel with
  | zero =>
    intro s hcov
    simpa only [workerThreadLoop] using hcov
  | succ fuel ih =>
    intro s hcov
    simp only [workerThreadLoop]
    rcases hws : workerStep w cids s with s1 | s1
    · obtain ⟨ho, hf, hst, hfc, hfl, d, htr, hd⟩ := workerStep_done_spec w cids s s1 hws
      rw [ho, hf, hst]
      exact hcov
    · obtain ⟨u, tr0, mrg, b, htr0, hmrg, hlt, hb, ho, hf, hst, hfc, hsf, hfile, htr⟩ :=
        workerStep_cont_spec w cids s s1 hws
      refine ih s1 ?_
      intro i hi hcur
      rw [hst] at hcur
      simp only at hcur
      rw [ho, hf, hb]
      by_cases hio : i < s.status.last_processed
      · exact runIds_present_mono w _ _ (hcov i hi hio)
      · refine runIds_covers w hstop _ _ _ ?_
        refine slice_get_mem (by omega) ?_ hi
        have : i < min (s.status.last_processed + BATCH_SIZE) cids.length := hcur
        omega

/-- The persisted cursor never exceeds the in-memory cursor. -/
lemma workerThreadLoop_files_le (w : World) (cids : List Str) :
    ∀ (fuel : Nat) (s : WS),
      s.files.statusFile.last_processed ≤ s.status.last_processed →
      (workerThreadLoop w cids fuel s).files.statusFile.last_processed
        ≤ (workerThreadLoop w cids fuel s).status.last_processed := by
  intro fuel
  induction fuel with
  | zero =>
    intro s h
    simpa only [workerThreadLoop] using h
  | succ fuel ih =>
    intro s h
    simp only [workerThreadLoop]
    rcases hws : workerStep w cids s with s1 | s1
    · obtain ⟨ho, hf, hst, hfc, hfl, d, htr, hd⟩ := workerStep_done_spec w cids s s1 hws
      rw [hfl, hst]
      exact h
    · obtain ⟨u, tr0, mrg, b, htr0, hmrg, hlt, hb, ho, hf, hst, hfc, hsf, hfile, htr⟩ :=
        workerStep_cont_spec w cids s s1 hws
      exact ih s1 (le_of_eq (by rw [hsf]))

/-- Failure bookkeeping across the loop: the in-memory failed set is the
loaded baseline plus exactly the trace's fetch failures, and the persisted
failure file always holds the same ids as the in-memory set. -/
lemma workerThreadLoop_fail_inv (w : World) (cids : List Str) (F : List Str) :
    ∀ (fuel : Nat) (s : WS),
      (∀ cid, cid ∈ s.failed ↔ (cid ∈ F ∨ Ev.fetchFail cid ∈ s.trace)) →
      (∀ cid, cid ∈ s.files.failFile ↔ cid ∈ s.failed) →
      ((∀ cid, cid ∈ (workerThreadLoop w cids fuel s).failed ↔
          (cid ∈ F ∨ Ev.fetchFail cid ∈ (workerThreadLoop w cids fuel s).trace)) ∧
       (∀ cid, cid ∈ (workerThreadLoop w cids fuel s).files.failFile ↔
          cid ∈ (workerThreadLoop w cids fuel s).failed)) := by
  intro fuel
  induction fuel with
  | zero =>
    intro s h1 h2
    simp only [workerThreadLoop]
    refine ⟨fun cid => ?_, h2⟩
    rw [h1 cid]
    simp only [List.mem_append, List.mem_cons, List.not_mem_nil, or_false]
    constructor
    · rintro (h | h)
      · exact Or.inl h
      · exact Or.inr (Or.inl h)
    · rintro (h | h | h)
      · exact Or.inl h
      · exact Or.inr h
      · cases h
  | succ fuel ih =>
    intro s h1 h2
    simp only [workerThreadLoop]
    rcases hws : workerStep w cids s with s1 | s1
    · obtain ⟨ho, hf, hst, hfc, hfl, d, htr, hd⟩ := workerStep_done_spec w cids s s1 hws
      refine ⟨fun cid => ?_, fun cid => by rw [hfl, hf]; exact h2 cid⟩
      rw [hf, htr, h1 cid]
      simp only [List.mem_append]
      constructor
      · rintro (h | h)
        · exact Or.inl h
        · exact Or.inr (Or.inl h)
      · rintro (h | h | h)
        · exact Or.inl h
        · exact Or.inr h
        · exact absurd rfl (ctrlEv_ne_fetchFail (hd _ h))
    · obtain ⟨u, tr0, mrg, b, htr0, hmrg, hlt, hb, ho, hf, hst, hfc, hsf, hfile, htr⟩ :=
        workerStep_cont_spec w cids s s1 hws
      refine ih s1 ?_ ?_
      · intro cid
        rw [hf, htr, hb]
        constructor
        · intro h
          rcases runIds_failed_sub w _ _ h with h | h
          · rcases (h1 cid).mp h with h | h
            · exact Or.inl h
            · exact Or.inr (by
                simp only [List.mem_append]
                exact Or.inl (Or.inl (Or.inl (Or.inl h))))
          · exact Or.inr (by
              simp only [List.mem_append]
              exact Or.inl (Or.inl (Or.inr h)))
        · rintro (h | h)
          · exact runIds_failed_mono w _ _ ((h1 cid).mpr (Or.inl h))
          · simp only [List.mem_append, List.mem_cons, List.not_mem_nil, or_false] at h
            rcases h with (((h | h) | h) | h) | h
            · exact runIds_failed_mono w _ _ ((h1 cid).mpr (Or.inr h))
            · exact absurd rfl (ctrlEv_ne_fetchFail (htr0 _ h))
            · rcases runIds_fetchFail_failed w _ _ h with h | h
              · cases h
              · exact h
            · cases h
            · exact absurd (hmrg _ h) (by simp)
      · intro cid
        rcases hfile with ⟨houtf, hfailf⟩ | ⟨houtf, hfailf, hnp, hnf⟩
        · rw [hfailf, hf]
          by_cases hemp : b.failed.isEmpty
          · rw [if_pos hemp]
            have hbe : b.failed = [] := List.isEmpty_iff.mp hemp
            have hse : ∀ x, x ∉ s.failed := by
              intro x hx
              have := runIds_failed_mono w
                ((cids.drop s.status.last_processed).take
                  (min (s.status.last_processed + BATCH_SIZE) cids.length
                    - s.status.last_processed))
                ⟨s.out, s.failed, 0, 0, u, []⟩ hx
              rw [← hb, hbe] at this
              cases this
            rw [hbe]
            simp only [List.not_mem_nil, iff_false]
            intro hx
            exact hse cid ((h2 cid).mp hx)
          · rw [if_neg hemp]
        · rw [hfailf, hf]
          have hfeq : b.failed = s.failed := by
            rw [hb]
            refine runIds_failed_eq_of_nFail w _ _ ?_
            rw [← hb, hnf]
          rw [hfeq]
          exact h2 cid

/-- The result rows stay duplicate-free, in memory and as persisted. -/
lemma workerThreadLoop_nodup (w : World) (cids : List Str) :
    ∀ (fuel : Nat) (s : WS),
      (outIds s.out).Nodup → (outIds s.files.outFile).Nodup →
      ((outIds (workerThreadLoop w cids fuel s).out).Nodup ∧
       (outIds (workerThreadLoop w cids fuel s).files.outFile).Nodup) := by
  intro fuel
  induction fuel with
  | zero =>
    intro s hm hp
    simp only [workerThreadLoop]
    exact ⟨hm, hp⟩
  | succ fuel ih =>
    intro s hm hp
    simp only [workerThreadLoop]
    rcases hws : workerStep w cids s with s1 | s1
    · obtain ⟨ho, hf, hst, hfc, hfl, d, htr, hd⟩ := workerStep_done_spec w cids s s1 hws
      rw [ho, hfl]
      exact ⟨hm, hp⟩
    · obtain ⟨u, tr0, mrg, b, htr0, hmrg, hlt, hb, ho, hf, hst, hfc, hsf, hfile, htr⟩ :=
        workerStep_cont_spec w cids s s1 hws
      have hbn : (outIds b.out).Nodup := by
        rw [hb]
        exact runIds_nodup w _ _ hm
      refine ih s1 (by rw [ho]; exact hbn) ?_
      rcases hfile with ⟨houtf, hfailf⟩ | ⟨houtf, hfailf, hnp, hnf⟩
      · rw [houtf]
        exact hbn
      · rw [houtf]
        exact hp

/-- One failing attempt followed by a retry: result components of the
innermost iteration (`retries = MAX_RETRIES - 1`). -/
lemma processCIDGo_fail_last (fw : FetchWorld) (m : Nat → Str) (u : Nat)
    (hstop : ∀ v, fw.stop v = false) (hon : ∀ k, fw.online k = true)
    (hatt : ∀ k, attemptOutcome fw k = Except.error (m k)) :
    processCIDGo fw 1 2 u = ⟨FetchResult.exn (m 2), 1, 0, u + 2⟩ := by
  simp [processCIDGo, MAX_RETRIES, hstop, hon, hatt]

lemma processCIDGo_fail_mid (fw : FetchWorld) (m : Nat → Str) (u : Nat)
    (hstop : ∀ v, fw.stop v = false) (hon : ∀ k, fw.online k = true)
    (hatt : ∀ k, attemptOutcome fw k = Except.error (m k)) :
    processCIDGo fw 2 1 u = ⟨FetchResult.exn (m 2), 2, 1, u + 4⟩ := by
  have h2 := processCIDGo_fail_last fw m (u + 2) hstop hon hatt
  simp [processCIDGo, MAX_RETRIES, hstop, hon, hatt, h2]

/-- Always-failing fetch with no stop signal: exactly `MAX_RETRIES` attempts,
a `RETRY_DELAY` sleep after each attempt but the last, and the last error is
rethrown. -/
lemma processCID_allFail (fw : FetchWorld) (m : Nat → Str) (t : Nat)
    (hstop : ∀ v, fw.stop v = false) (hon : ∀ k, fw.online k = true)
    (hatt : ∀ k, attemptOutcome fw k = Except.error (m k)) :
    processCID fw t = ⟨FetchResult.exn (m 2), 3, 2, t + 6⟩ := by
  have h1 := processCIDGo_fail_mid fw m (t + 2) hstop hon hatt
  unfold processCID
  simp [processCIDGo, MAX_RETRIES, hstop, hon, hatt, h1]

/-- A stop signal observed at the loop guard while the retry budget remains
makes `processCID` return null. -/
lemma processCIDGo_stop_null (fw : FetchWorld) (fuel k t : Nat)
    (hk : k < MAX_RETRIES) (hs : fw.stop t = true) :
    (processCIDGo fw (fuel + 1) k t).result = FetchResult.null := by
  simp [processCIDGo, hk, hs]

lemma parseRows_filter (rows : List (List Str)) :
    parseRows rows = parseRows (rows.filter (fun cells => decide (4 ≤ cells.length))) := by
  suffices h : ∀ (l : List (List Str)) (acc : RecData),
      l.foldl (fun acc cells =>
        if cells.length < 4 then acc
        else insertMonth acc (trimChars (cells.getD 1 []))
               (normalizeAmount (cells.getD 3 []))) acc
      = (l.filter (fun cells => decide (4 ≤ cells.length))).foldl (fun acc cells =>
        if cells.length < 4 then acc
        else insertMonth acc (trimChars (cells.getD 1 []))
               (normalizeAmount (cells.getD 3 []))) acc by
    exact h rows []
  intro l
  induction l with
  | nil => intro acc; rfl
  | cons c rest ih =>
    intro acc
    by_cases hc : c.length < 4
    · rw [List.foldl_cons, if_pos hc, List.filter_cons, if_neg (by simp only [decide_eq_true_iff]; omega)]
      exact ih acc
    · rw [List.foldl_cons, if_neg hc, List.filter_cons, if_pos (by simp only [decide_eq_true_iff]; omega),
        List.foldl_cons, if_neg hc]
      exact ih _

lemma parseRows_all_short (rows : List (List Str))
    (h : ∀ r ∈ rows, r.length < 4) : parseRows rows = [] := by
  suffices hgen : ∀ (l : List (List Str)) (acc : RecData), (∀ r ∈ l, r.length < 4) →
      l.foldl (fun acc cells =>
        if cells.length < 4 then acc
        else insertMonth acc (trimChars (cells.getD 1 []))
               (normalizeAmount (cells.getD 3 []))) acc = acc by
    exact hgen rows [] h
  intro l
  induction l with
  | nil => intro acc h; rfl
  | cons c rest ih =>
    intro acc h
    rw [List.foldl_cons, if_pos (h c (by simp))]
    exact ih acc fun r hr => h r (by simp [hr])

lemma hasRow_iff_mem_outIds (out : List (Str × RecData)) (cid : Str) :
    hasRow out cid ↔ cid ∈ outIds out := by
  unfold hasRow outIds
  rw [List.mem_map]

/-- A minimal successful page: a header row plus one data row with 4 cells. -/
def okPage : AttemptInput := AttemptInput.page [[], [[], [], [], []]]

/-- A flag stream that is never raised. -/
def neverB : Nat → Bool := fun _ => false

/-- A flag stream raised from time `n` on (stop flags only ever go up). -/
def fromTime (n : Nat) : Nat → Bool := fun t => decide (n ≤ t)

/-- Fresh persisted state: no results, no failures, default status. -/
def exEmpty : Files := ⟨[], [], ⟨0, 0, 0⟩⟩

/-- A world with no control signals where every fetch succeeds. -/
def okW : World := ⟨neverB, neverB, fun _ _ => true, fun _ _ => okPage, 100⟩

/-- Stop raised at clock 4: just after the first id of the first batch
completed (its `processCID` returns at clock 4) and before the second id's
per-id stop check. -/
def stopW4 : World := ⟨fromTime 4, neverB, fun _ _ => true, fun _ _ => okPage, 100⟩

/-- Every attempt throws; stop raised at clock 5, which is observed at the
loop guard right after the first retry delay of the first id. -/
def stopW5Err : World :=
  ⟨fromTime 5, neverB, fun _ _ => true, fun _ _ => AttemptInput.err ['e'], 100⟩

/-- Pause raised from clock 4 (right after the first id of the batch
completed) until clock 30. -/
def pauseW : World :=
  ⟨neverB, fun t => decide (4 ≤ t ∧ t < 30), fun _ _ => true, fun _ _ => okPage, 100⟩

def cidsAB : List Str := [['a'], ['b']]

def cids10 : List Str :=
  [['a'], ['b'], ['c'], ['d'], ['e'], ['f'], ['g'], ['h'], ['i'], ['j']]

def cids20 : List Str := List.replicate 20 ['a']

/-- The shared status file's successive cursor values when the `saveStatus`
calls of two workers (the server launches `MAX_WORKERS` of them over the same
input, each loading the same initial files) land interleaved per `sched`
(`true` takes the next write of the first worker). -/
def interleaveWrites : List Bool → List Nat → List Nat → List Nat
  | [], a, b => a ++ b
  | true :: sch, a, b =>
    match a with
    | [] => interleaveWrites sch [] b
    | x :: a2 => x :: interleaveWrites sch a2 b
  | false :: sch, a, b =>
    match b with
    | [] => interleaveWrites sch a []
    | y :: b2 => y :: interleaveWrites sch a b2

/-- Claim C1 (resumption correctness): if the persisted cursor is `K` and the
result store has a row for every id at an index below `K`, a restarted worker
fetches only ids sitting at indices at or past `K`, and never an id that
occurs below `K`. -/
theorem C1_resumption (w : World) (cids : List Str) (ex : Files) (t0 K : Nat)
    (hK : ex.statusFile.last_processed = K)
    (hdone : ∀ i (hi : i < cids.length), i < K → cids.get ⟨i, hi⟩ ∈ outIds ex.outFile) :
    ∀ cid, Ev.fetch cid ∈ (workerThread w cids ex t0).trace →
      (∃ j, K ≤ j ∧ ∃ hj : j < cids.length, cids.get ⟨j, hj⟩ = cid) ∧
      (∀ i (hi : i < cids.length), i < K → cids.get ⟨i, hi⟩ ≠ cid) := by
  intro cid hf
  unfold workerThread at hf
  constructor
  · have hge := workerThreadLoop_fetch_ge w cids K (cids.length + 1) (initWS ex t0) cid
      (le_of_eq hK.symm) hf
    rcases hge with h | h
    · simp [initWS] at h
    · exact h
  · intro i hi hik heq
    have hp : present (initWS ex t0).out (initWS ex t0).failed cid := by
      refine Or.inl ?_
      rw [hasRow_iff_mem_outIds]
      have hm := hdone i hi hik
      rw [heq] at hm
      exact hm
    exact workerThreadLoop_no_fetch_of_present w cids (cids.length + 1) (initWS ex t0)
      cid hp (by simp [initWS]) hf

/-- Claim C2 (dedup idempotence): an id already present in the loaded
ResultSet or FailureSet is never fetched by a worker run. -/
theorem C2_dedup (w : World) (cids : List Str) (ex : Files) (t0 : Nat) (cid : Str)
    (hpres : cid ∈ outIds ex.outFile ∨ cid ∈ ex.failFile) :
    Ev.fetch cid ∉ (workerThread w cids ex t0).trace := by
  unfold workerThread
  refine workerThreadLoop_no_fetch_of_present w cids _ _ cid ?_ (by simp [initWS])
  rcases hpres with h | h
  · exact Or.inl ((hasRow_iff_mem_outIds _ _).mpr h)
  · exact Or.inr h

/-- Claim C3 as amended: for runs during which no stop signal is raised, the
cursor invariant holds — every id at an index below the cursor has a result
row or is in the failed set (already-present ids were loaded into those same
sets), even when some ids of a batch failed — and the persisted cursor never
exceeds the in-memory one.  (A stop signal can break a batch early while the
cursor still advances to the batch end, see the counterexample.) -/
theorem C3_cursor_amended (w : World) (cids : List Str) (ex : Files) (t0 : Nat)
    (hstop : ∀ t, w.stop t = false)
    (hinit : ∀ i (hi : i < cids.length), i < ex.statusFile.last_processed →
      present ex.outFile ex.failFile (cids.get ⟨i, hi⟩)) :
    (∀ i (hi : i < cids.length),
      i < (workerThread w cids ex t0).status.last_processed →
      present (workerThread w cids ex t0).out (workerThread w cids ex t0).failed
        (cids.get ⟨i, hi⟩)) ∧
    (workerThread w cids ex t0).files.statusFile.last_processed
      ≤ (workerThread w cids ex t0).status.last_processed := by
  unfold workerThread
  constructor
  · exact workerThreadLoop_covers w hstop cids _ _ hinit
  · exact workerThreadLoop_files_le w cids _ _ (le_refl _)

/-- Claim C4 as amended: the sequence of cursor values a single worker
persists over a run is non-decreasing.  (The shared file under several
concurrent workers is not, see the counterexample.) -/
theorem C4_monotonic_amended (w : World) (cids : List Str) (ex : Files) (t0 : Nat) :
    List.Pairwise (· ≤ ·) (advCursors (workerThread w cids ex t0).trace) := by
  unfold workerThread
  exact (workerThreadLoop_adv_sorted w cids _ _ (by simp [initWS, advCursors])
    (by simp [initWS, advCursors])).1

/-- Claim C5 (retry exhaustion): with connectivity up, no stop signal and an
always-failing underlying operation, `processCID` makes exactly
`MAX_RETRIES = 3` attempts with a `RETRY_DELAY = 10000` ms sleep after every
attempt but the last, rethrows the last attempt's error, and the scheduler
then records the id in the failed set rather than retrying it again. -/
theorem C5_retry_exhaustion (fw : FetchWorld) (m : Nat → Str) (t : Nat)
    (hstop : ∀ v, fw.stop v = false) (hon : ∀ k, fw.online k = true)
    (hatt : ∀ k, attemptOutcome fw k = Except.error (m k)) :
    MAX_RETRIES = 3 ∧ RETRY_DELAY = 10000 ∧
    (processCID fw t).attempts = MAX_RETRIES ∧
    (processCID fw t).delays = MAX_RETRIES - 1 ∧
    (processCID fw t).result = FetchResult.exn (m (MAX_RETRIES - 1)) ∧
    (∀ (w : World) (rest : List Str) (acc : BatchAcc) (cid e : Str),
      w.stop acc.t = false → ¬ present acc.out acc.failed cid →
      (processCID ⟨w.stop, w.online cid, w.attempt cid⟩ (acc.t + 1)).result
        = FetchResult.exn e →
      cid ∈ (runIds w (cid :: rest) acc).failed ∧
      Ev.fetchFail cid ∈ (runIds w (cid :: rest) acc).trace) := by
  have hall := processCID_allFail fw m t hstop hon hatt
  refine ⟨rfl, rfl, by rw [hall]; rfl, by rw [hall]; rfl, by rw [hall]; rfl, ?_⟩
  intro w rest acc cid e hsa hnp hr
  constructor
  · simp only [runIds, hsa, Bool.false_eq_true, if_false, if_neg hnp, hr]
    exact runIds_failed_mono w rest _ (addId_mem_self _ _)
  · simp only [runIds, hsa, Bool.false_eq_true, if_false, if_neg hnp, hr]
    exact runIds_trace_mono w rest _ (by simp)

/-- Claim C7 (merge union semantics): across a run, the persisted FailureSet
holds exactly the loaded failures plus the run's fetch failures — so failures
are unioned in and never removed, and successive merges with disjoint new
failure sets accumulate — and the persisted result table never acquires a
duplicate row for an id. -/
theorem C7_merge_union (w : World) (cids : List Str) (ex : Files) (t0 : Nat)
    (hnd : (outIds ex.outFile).Nodup) :
    (∀ cid, cid ∈ (workerThread w cids ex t0).files.failFile ↔
      (cid ∈ ex.failFile ∨ Ev.fetchFail cid ∈ (workerThread w cids ex t0).trace)) ∧
    (outIds (workerThread w cids ex t0).files.outFile).Nodup := by
  unfold workerThread
  have hinv := workerThreadLoop_fail_inv w cids ex.failFile (cids.length + 1)
    (initWS ex t0) (fun cid => by simp [initWS]) (fun cid => by simp [initWS])
  refine ⟨fun cid => ?_, (workerThreadLoop_nodup w cids _ _ hnd hnd).2⟩
  rw [hinv.2 cid, hinv.1 cid]

/-- Claim C8 (amount normalization): row parsing drops every row with fewer
than 4 cells; the amount text has all commas stripped; a cleaned text that is
not a valid non-negative decimal is coerced to 0; and the coerced amount is
never negative. -/
theorem C8_amount_normalization (s : Str) (rows : List (List Str)) :
    parseRows rows = parseRows (rows.filter (fun cells => decide (4 ≤ cells.length))) ∧
    (∀ c ∈ stripCommas (trimChars s), c ≠ ',') ∧
    (isNonNegDec (stripCommas (trimChars s)) = false → normalizeAmount s = 0) ∧
    0 ≤ normalizeAmount s := by
  refine ⟨parseRows_filter rows, ?_, ?_, ?_⟩
  · intro c hc
    simp only [stripCommas, List.mem_filter] at hc
    simpa using hc.2
  · intro hbad
    simp only [normalizeAmount]
    rw [hbad]
    simp
  · simp only [normalizeAmount]
    split
    · simp only [parseDec]
      positivity
    · exact le_refl 0

/-- Claim C9 as amended: an attempt fails with the no-data error exactly when
the table has zero raw data rows after the header; when data rows exist but
none has the minimal 4 cells, the attempt succeeds with an empty RecordData
instead of failing.  (The counterexample shows the original claim — failure
on zero *valid* rows — is false.) -/
theorem C9_empty_amended (rows : List (List Str)) :
    (scrapeRows rows = Except.error noDataMsg ↔ rows.drop 1 = []) ∧
    (rows.drop 1 ≠ [] → (∀ r ∈ rows.drop 1, r.length < 4) →
      scrapeRows rows = Except.ok []) := by
  constructor
  · simp only [scrapeRows]
    split
    · rename_i h
      simp only [List.isEmpty_iff] at h
      exact ⟨fun _ => h, fun _ => rfl⟩
    · rename_i h
      simp only [List.isEmpty_iff] at h
      constructor
      · intro he
        exact Except.noConfusion he
      · intro he
        exact absurd he h
  · intro hne hshort
    simp only [scrapeRows]
    rw [if_neg (by simpa [List.isEmpty_iff] using hne)]
    rw [parseRows_all_short _ hshort]

/-- Claim C10 (stop marks in-flight id as permanent failure): a stop signal
observed at a retry checkpoint with budget remaining makes `processCID`
return null; the scheduler records a null result as a failure with a
fetch-failure event; a run's fetch failures land in the in-memory failed set
and the persisted failure file; and an id in a loaded failure file is never
fetched again by any later run. -/
theorem C10_stop_persist (w : World) (cids : List Str) (ex : Files) (t0 : Nat) :
    (∀ (fw : FetchWorld) (fuel k t : Nat), k < MAX_RETRIES → fw.stop t = true →
      (processCIDGo fw (fuel + 1) k t).result = FetchResult.null) ∧
    (∀ (rest : List Str) (acc : BatchAcc) (cid : Str),
      w.stop acc.t = false → ¬ present acc.out acc.failed cid →
      (processCID ⟨w.stop, w.online cid, w.attempt cid⟩ (acc.t + 1)).result
        = FetchResult.null →
      cid ∈ (runIds w (cid :: rest) acc).failed ∧
      Ev.fetchFail cid ∈ (runIds w (cid :: rest) acc).trace) ∧
    (∀ cid, Ev.fetchFail cid ∈ (workerThread w cids ex t0).trace →
      cid ∈ (workerThread w cids ex t0).failed ∧
      cid ∈ (workerThread w cids ex t0).files.failFile) ∧
    (∀ (w2 : World) (cids2 : List Str) (ex2 : Files) (t2 : Nat) (cid : Str),
      cid ∈ ex2.failFile →
      Ev.fetch cid ∉ (workerThread w2 cids2 ex2 t2).trace) := by
  refine ⟨processCIDGo_stop_null, ?_, ?_, ?_⟩
  · intro rest acc cid hsa hnp hr
    constructor
    · simp only [runIds, hsa, Bool.false_eq_true, if_false, if_neg hnp, hr]
      exact runIds_failed_mono w rest _ (addId_mem_self _ _)
    · simp only [runIds, hsa, Bool.false_eq_true, if_false, if_neg hnp, hr]
      exact runIds_trace_mono w rest _ (by simp)
  · intro cid hff
    unfold workerThread at hff ⊢
    have hinv := workerThreadLoop_fail_inv w cids ex.failFile (cids.length + 1)
      (initWS ex t0) (fun c => by simp [initWS]) (fun c => by simp [initWS])
    have h1 : cid ∈ (workerThreadLoop w cids (cids.length + 1) (initWS ex t0)).failed :=
      (hinv.1 cid).mpr (Or.inr hff)
    exact ⟨h1, (hinv.2 cid).mpr h1⟩
  · intro w2 cids2 ex2 t2 cid hmem
    unfold workerThread
    exact workerThreadLoop_no_fetch_of_present w2 cids2 _ _ cid (Or.inr hmem)
      (by simp [initWS])

/-- Extra concrete worlds and files used to instantiate the theorems. -/
def fwErr : FetchWorld := ⟨neverB, fun _ => true, fun _ => AttemptInput.err ['e']⟩

def errW : World :=
  ⟨neverB, neverB, fun _ _ => true, fun _ _ => AttemptInput.err ['e'], 100⟩

def exC1 : Files := ⟨[(['a'], [([], 0)])], [], ⟨1, 1, 0⟩⟩

def exC2 : Files := ⟨[], [['a']], ⟨0, 0, 0⟩⟩

theorem C1_resumption_witness :
    (∃ j, 1 ≤ j ∧ ∃ hj : j < cidsAB.length, cidsAB.get ⟨j, hj⟩ = ['b']) ∧
    (∀ i (hi : i < cidsAB.length), i < 1 → cidsAB.get ⟨i, hi⟩ ≠ ['b']) :=
  C1_resumption okW cidsAB exC1 0 1 rfl (by decide) ['b'] (by decide)

theorem C2_dedup_witness :
    Ev.fetch ['a'] ∉ (workerThread okW cidsAB exC2 0).trace :=
  C2_dedup okW cidsAB exC2 0 ['a'] (by decide)

/-- Claim C3 counterexample: with stop raised right after the first id of a
two-id batch completes, the interrupted iteration still persists cursor 2
although the second id has no result row, is not in the failed set, and was
never skipped as already-present. -/
theorem C3_cursor_cex :
    (workerThread stopW4 cidsAB exEmpty 0).files.statusFile.last_processed = 2 ∧
    (workerThread stopW4 cidsAB exEmpty 0).status.last_processed = 2 ∧
    cidsAB.get ⟨1, by decide⟩ = ['b'] ∧
    ['b'] ∉ outIds (workerThread stopW4 cidsAB exEmpty 0).out ∧
    ['b'] ∉ (workerThread stopW4 cidsAB exEmpty 0).failed ∧
    Ev.skip ['b'] ∉ (workerThread stopW4 cidsAB exEmpty 0).trace := by
  decide

theorem C3_cursor_amended_witness :
    (∀ i (hi : i < cidsAB.length),
      i < (workerThread okW cidsAB exEmpty 0).status.last_processed →
      present (workerThread okW cidsAB exEmpty 0).out
        (workerThread okW cidsAB exEmpty 0).failed (cidsAB.get ⟨i, hi⟩)) ∧
    (workerThread okW cidsAB exEmpty 0).files.statusFile.last_processed
      ≤ (workerThread okW cidsAB exEmpty 0).status.last_processed :=
  C3_cursor_amended okW cidsAB exEmpty 0 (fun _ => rfl)
    (fun i _ h => absurd h (Nat.not_lt_zero i))

/-- Claim C4 counterexample: each of two workers persists the cursor sequence
[10, 20] over the same 20-id input; when their status-file writes interleave
as first-worker-then-second, the shared file's value over time is
[10, 20, 10, 20], which is not non-decreasing. -/
theorem C4_monotonic_cex :
    advCursors (workerThread okW cids20 exEmpty 0).trace = [10, 20] ∧
    ¬ List.Pairwise (· ≤ ·)
      (interleaveWrites [true, true, false, false]
        (advCursors (workerThread okW cids20 exEmpty 0).trace)
        (advCursors (workerThread okW cids20 exEmpty 0).trace)) := by
  decide

theorem C5_retry_exhaustion_witness :
    (processCID fwErr 0).attempts = MAX_RETRIES ∧
    (processCID fwErr 0).result = FetchResult.exn ['e'] ∧
    ['a'] ∈ (runIds errW (['a'] :: []) ⟨[], [], 0, 0, 0, []⟩).failed ∧
    Ev.fetchFail ['a'] ∈ (runIds errW (['a'] :: []) ⟨[], [], 0, 0, 0, []⟩).trace := by
  have h := C5_retry_exhaustion fwErr (fun _ => ['e']) 0 (fun _ => rfl) (fun _ => rfl)
    (fun _ => rfl)
  exact ⟨h.2.2.1, h.2.2.2.2.1,
    (h.2.2.2.2.2 errW [] ⟨[], [], 0, 0, 0, []⟩ ['a'] ['e'] rfl (by decide) (by decide)).1,
    (h.2.2.2.2.2 errW [] ⟨[], [], 0, 0, 0, []⟩ ['a'] ['e'] rfl (by decide) (by decide)).2⟩

/-- Claim C6 counterexample: pause is requested at clock 4, right after the
first id of a batch of 10 completes, yet all 10 ids of the batch are fetched
before the scheduler first halts for the pause — it does not halt before
starting the second id. -/
theorem C6_pause_cex :
    fetchedCids ((workerThread pauseW cids10 exEmpty 0).trace.takeWhile
      (fun e => e != Ev.pauseHalt)) = cids10 ∧
    Ev.pauseHalt ∈ (workerThread pauseW cids10 exEmpty 0).trace := by
  decide

/-- Claim C6 as amended: the pause flag is observed only at batch boundaries —
the per-id loop never halts for a pause — so a pause requested after the
first id of a batch takes effect only after the whole batch completes; the
scheduler then halts, resumes once unpaused, and goes on with the next
batch boundary. -/
theorem C6_pause_amended :
    (∀ (w : World) (l : List Str) (acc : BatchAcc),
      Ev.pauseHalt ∉ acc.trace → Ev.pauseHalt ∉ (runIds w l acc).trace) ∧
    (workerThread pauseW cids10 exEmpty 0).trace
      = ((workerThread pauseW cids10 exEmpty 0).trace.takeWhile
          (fun e => e != Ev.pauseHalt)) ++ [Ev.pauseHalt, Ev.resumed, Ev.noMoreWork] := by
  constructor
  · intro w l acc hn h
    obtain ⟨d, hd, hall⟩ := runIds_trace_shape w l acc
    rw [hd] at h
    rcases List.mem_append.mp h with h | h
    · exact hn h
    · have hb := hall _ h
      simp [isBatchEv] at hb
  · decide

theorem C6_pause_amended_witness :
    Ev.pauseHalt ∉ (runIds okW cidsAB ⟨[], [], 0, 0, 0, []⟩).trace ∧
    (workerThread pauseW cids10 exEmpty 0).trace
      = ((workerThread pauseW cids10 exEmpty 0).trace.takeWhile
          (fun e => e != Ev.pauseHalt)) ++ [Ev.pauseHalt, Ev.resumed, Ev.noMoreWork] :=
  ⟨C6_pause_amended.1 okW cidsAB ⟨[], [], 0, 0, 0, []⟩ (by decide), C6_pause_amended.2⟩

theorem C7_merge_union_witness :
    (∀ cid, cid ∈ (workerThread errW (['a'] :: []) exEmpty 0).files.failFile ↔
      (cid ∈ exEmpty.failFile ∨
        Ev.fetchFail cid ∈ (workerThread errW (['a'] :: []) exEmpty 0).trace)) ∧
    (outIds (workerThread errW (['a'] :: []) exEmpty 0).files.outFile).Nodup :=
  C7_merge_union errW (['a'] :: []) exEmpty 0 (by decide)

theorem C8_amount_normalization_witness :
    normalizeAmount "12a".toList = 0 ∧
    (0 : ℚ) ≤ normalizeAmount "1,234".toList ∧
    parseRows [[[], [], []]]
      = parseRows ([[[], [], []]].filter (fun cells => decide (4 ≤ cells.length))) :=
  ⟨(C8_amount_normalization "12a".toList []).2.2.1 (by decide),
   (C8_amount_normalization "1,234".toList []).2.2.2,
   (C8_amount_normalization [] [[[], [], []]]).1⟩

/-- A page with a header row and a single 3-cell data row: it yields zero
valid parsed rows yet is not empty of data rows. -/
def shortPage : List (List Str) := [[], [[], [], []]]

/-- Claim C9 counterexample: a fetch attempt whose table has one data row
with only 3 cells produces zero valid parsed rows, yet it does not fail —
`processCID` returns an empty RecordData as a success in a single attempt. -/
theorem C9_empty_cex :
    scrapeRows shortPage = Except.ok [] ∧
    shortPage.drop 1 ≠ [] ∧
    (processCID ⟨neverB, fun _ => true,
      fun _ => AttemptInput.page shortPage⟩ 0).result = FetchResult.ok [] ∧
    (processCID ⟨neverB, fun _ => true,
      fun _ => AttemptInput.page shortPage⟩ 0).attempts = 1 := by
  exact ⟨rfl, by decide, rfl, rfl⟩

theorem C9_empty_amended_witness :
    (scrapeRows shortPage = Except.error noDataMsg ↔ shortPage.drop 1 = []) ∧
    scrapeRows shortPage = Except.ok [] :=
  ⟨(C9_empty_amended shortPage).1,
   (C9_empty_amended shortPage).2 (by decide) (by decide)⟩

def exFailA : Files := ⟨[], [['a']], ⟨0, 0, 0⟩⟩

theorem C10_stop_persist_witness :
    (processCIDGo ⟨fromTime 0, fun _ => true, fun _ => okPage⟩ 3 0 0).result
      = FetchResult.null ∧
    ['a'] ∈ (runIds stopW5Err (['a'] :: []) ⟨[], [], 0, 0, 2, []⟩).failed ∧
    ['a'] ∈ (workerThread stopW5Err (['a'] :: []) exEmpty 0).failed ∧
    ['a'] ∈ (workerThread stopW5Err (['a'] :: []) exEmpty 0).files.failFile ∧
    Ev.fetch ['a'] ∉ (workerThread okW cidsAB exFailA 0).trace := by
  have h := C10_stop_persist stopW5Err (['a'] :: []) exEmpty 0
  exact ⟨h.1 ⟨fromTime 0, fun _ => true, fun _ => okPage⟩ 2 0 0 (by decide) (by decide),
    (h.2.1 [] ⟨[], [], 0, 0, 2, []⟩ ['a'] (by decide) (by decide) (by decide)).1,
    (h.2.2.1 ['a'] (by decide)).1,
    (h.2.2.1 ['a'] (by decide)).2,
    h.2.2.2 okW cidsAB exFailA 0 ['a'] (by decide)⟩

end App